import Mathlib

/-!
Verification development for the troi recommendation playground core
(`src/troi/cli.py`, `src/troi/print_recording.py`,
`src/troi/patches/artist_radio.py`, `src/troi/patches/weekly_flashback_jams.py`).

Each Python function relevant to the checked claims is shallowly embedded as
an executable Lean definition; stateful code (in-place list mutation) is
embedded as explicit state passing, Python exceptions as `Option`/`Except`
error values, and Python floats as exact rationals (only the division
structure of the scores matters for the claims, not rounding).
-/

namespace Troi

/-- An artist reference as carried by a `Recording`
(`troi.Artist`: display name, mbids, artist credit id, all optional). -/
structure Artist where
  name : Option String := none
  mbids : Option (List String) := none
  artist_credit_id : Option Int := none
deriving DecidableEq, Repr

/-- A track (`troi.Recording`).  The free-form provider metadata bags are
modelled by the exact keys the code under `src/` reads:
`listenbrainz["listen_count"]`, `acousticbrainz["bpm"]`,
`acousticbrainz["moods"]["mood_aggressive"]` (when the moods bag is present it
is modelled as carrying its aggressive-mood value), `musicbrainz["genres"]`
and `musicbrainz["tags"]`.  A `none` field is an absent key. -/
structure Recording where
  mbid : String
  name : Option String := none
  year : Option Nat := none
  artist : Option Artist := none
  listen_count : Option Nat := none
  bpm : Option Nat := none
  moods : Option ℚ := none
  genres : Option (List String) := none
  tags : Option (List String) := none
deriving DecidableEq, Repr

/-- A playlist (`troi.Playlist`): name, optional file name, ordered recordings. -/
structure Playlist where
  name : String
  filename : Option String := none
  recordings : List Recording := []
deriving DecidableEq, Repr

/-! ## InterleaveRecordingsElement (src/troi/patches/artist_radio.py lines 39-54)

`read` repeatedly walks over its input lists, popping the first element of
each non-empty one, until a whole round finds every list empty.  Popping
mutates the caller-owned lists in place, so the embedding passes the list of
lists as explicit state: `interleaveReadAux` returns the final state of the
upstream lists together with the list of collected entities. -/

/-- One round of the `while` loop finds every input list empty
(`empty == len(entities)`). -/
def allEmpty {α : Type _} (lists : List (List α)) : Bool :=
  lists.all (fun l => l.isEmpty)

theorem sum_map_length_tail_le {α : Type _} (ls : List (List α)) :
    ((ls.map List.tail).map List.length).sum ≤ (ls.map List.length).sum := by
  induction ls with
  | nil => simp
  | cons a ls ih =>
    simp only [List.map_cons, List.sum_cons]
    have ha : a.tail.length ≤ a.length := by
      cases a <;> simp
    omega

theorem sum_map_length_tail_lt {α : Type _} (ls : List (List α))
    (l : List α) (hl : l ∈ ls) (hne : l ≠ []) :
    ((ls.map List.tail).map List.length).sum < (ls.map List.length).sum := by
  induction ls with
  | nil => cases hl
  | cons a ls ih =>
    simp only [List.map_cons, List.sum_cons]
    rcases List.mem_cons.mp hl with h | h
    · subst h
      have ha : l.tail.length < l.length := by
        cases l with
        | nil => exact absurd rfl hne
        | cons x xs => simp
      have := sum_map_length_tail_le ls
      omega
    · have := ih h
      have ha : a.tail.length ≤ a.length := by cases a <;> simp
      omega

/-- `InterleaveRecordingsElement.read`, with the mutation made explicit.
The first component is the final state of the upstream entity lists (each
drained by repeated `pop(0)`); the second is the returned `recordings`.
Each round appends the head of every non-empty list (in source order) and
replaces every list by its tail, until a round finds all lists empty. -/
def interleaveReadAux {α : Type _} (lists : List (List α)) :
    List (List α) × List α :=
  if h : allEmpty lists then (lists, [])
  else
    let rest := interleaveReadAux (lists.map List.tail)
    (rest.1, lists.filterMap List.head? ++ rest.2)
termination_by (lists.map List.length).sum
decreasing_by
  simp only [allEmpty, List.all_eq_true, Bool.not_eq_true] at h
  push_neg at h
  obtain ⟨l, hl, hlne⟩ := h
  exact sum_map_length_tail_lt lists l hl (by
    cases l with
    | nil => simp at hlne
    | cons x xs => simp)

/-- The list of recordings returned by `InterleaveRecordingsElement.read`. -/
def interleaveRead {α : Type _} (lists : List (List α)) : List α :=
  (interleaveReadAux lists).2

theorem interleaveReadAux_unfold {α : Type _} (lists : List (List α)) :
    interleaveReadAux lists =
      if allEmpty lists then (lists, [])
      else ((interleaveReadAux (lists.map List.tail)).1,
            lists.filterMap List.head? ++ (interleaveReadAux (lists.map List.tail)).2) := by
  rw [interleaveReadAux]
  by_cases h : allEmpty lists <;> simp [h]

theorem allEmpty_forall_nil {α : Type _} {lists : List (List α)}
    (h : allEmpty lists = true) : ∀ l ∈ lists, l = [] := by
  intro l hl
  have := List.all_eq_true.mp h l hl
  simpa using this

theorem allEmpty_of_sum_le_zero {α : Type _} {lists : List (List α)}
    (h : (lists.map List.length).sum ≤ 0) : allEmpty lists = true := by
  simp only [allEmpty, List.all_eq_true]
  intro l hl
  have : l.length ≤ (lists.map List.length).sum := by
    have := List.le_sum_of_mem (List.mem_map_of_mem List.length hl)
    exact this
  have : l.length = 0 := by omega
  simpa [List.isEmpty_iff, List.length_eq_zero] using this

theorem heads_tails_perm {α : Type _} (lists : List (List α)) :
    (lists.filterMap List.head? ++ (lists.map List.tail).flatten).Perm lists.flatten := by
  induction lists with
  | nil => simp
  | cons l ls ih =>
    cases l with
    | nil => simpa using ih
    | cons a as =>
      simp only [List.filterMap_cons, List.head?_cons, List.map_cons, List.tail_cons,
        List.flatten_cons, List.cons_append]
      refine List.Perm.cons a ?_
      exact (List.perm_append_comm_assoc _ as _).trans (List.Perm.append_left as ih)

theorem interleave_perm_bound {α : Type _} :
    ∀ (n : Nat) (lists : List (List α)), (lists.map List.length).sum ≤ n →
      (interleaveRead lists).Perm lists.flatten := by
  intro n
  induction n with
  | zero =>
    intro lists h
    have hall := allEmpty_of_sum_le_zero h
    rw [interleaveRead, interleaveReadAux_unfold, if_pos hall]
    have : lists.flatten = [] := List.flatten_eq_nil_iff.mpr (allEmpty_forall_nil hall)
    simp [this]
  | succ n ih =>
    intro lists h
    by_cases hall : allEmpty lists
    · rw [interleaveRead, interleaveReadAux_unfold, if_pos hall]
      have : lists.flatten = [] := List.flatten_eq_nil_iff.mpr (allEmpty_forall_nil hall)
      simp [this]
    · rw [interleaveRead, interleaveReadAux_unfold, if_neg hall]
      have hne : ∃ l ∈ lists, l ≠ [] := by
        simp only [allEmpty, List.all_eq_true, Bool.not_eq_true] at hall
        push_neg at hall
        obtain ⟨l, hl, hlne⟩ := hall
        exact ⟨l, hl, by simpa [List.isEmpty_iff] using hlne⟩
      obtain ⟨l, hl, hlne⟩ := hne
      have hlt := sum_map_length_tail_lt lists l hl hlne
      have ihp : (interleaveRead (lists.map List.tail)).Perm (lists.map List.tail).flatten :=
        ih (lists.map List.tail) (by omega)
      exact ((List.Perm.append_left _ ihp).trans (heads_tails_perm lists))

theorem interleave_sublist_bound {α : Type _} :
    ∀ (n : Nat) (lists : List (List α)), (lists.map List.length).sum ≤ n →
      ∀ l ∈ lists, l.Sublist (interleaveRead lists) := by
  intro n
  induction n with
  | zero =>
    intro lists h l hl
    have := allEmpty_forall_nil (allEmpty_of_sum_le_zero h) l hl
    simp [this]
  | succ n ih =>
    intro lists h l hl
    by_cases hall : allEmpty lists
    · have := allEmpty_forall_nil hall l hl
      simp [this]
    · rw [interleaveRead, interleaveReadAux_unfold, if_neg hall]
      cases l with
      | nil => simp
      | cons a as =>
        have hlt := sum_map_length_tail_lt lists _ hl (by simp)
        have has : as ∈ lists.map List.tail := by
          have : as = (a :: as).tail := rfl
          rw [this]
          exact List.mem_map_of_mem List.tail hl
        have ihs : as.Sublist (interleaveRead (lists.map List.tail)) :=
          ih (lists.map List.tail) (by omega) as has
        have hahead : a ∈ lists.filterMap List.head? :=
          List.mem_filterMap.mpr ⟨a :: as, hl, rfl⟩
        obtain ⟨s, t, hst⟩ := List.append_of_mem hahead
        rw [hst, List.append_assoc, List.cons_append]
        exact List.sublist_append_of_sublist_right
          (List.Sublist.cons₂ a (List.sublist_append_of_sublist_right ihs))

theorem interleave_state_bound {α : Type _} :
    ∀ (n : Nat) (lists : List (List α)), (lists.map List.length).sum ≤ n →
      (interleaveReadAux lists).1 = lists.map (fun _ => ([] : List α)) := by
  intro n
  induction n with
  | zero =>
    intro lists h
    have hall := allEmpty_of_sum_le_zero h
    rw [interleaveReadAux_unfold, if_pos hall]
    have := allEmpty_forall_nil hall
    calc lists = lists.map id := (List.map_id lists).symm
      _ = lists.map (fun _ => ([] : List α)) :=
          List.map_congr_left (fun l hl => by simp [this l hl])
  | succ n ih =>
    intro lists h
    by_cases hall : allEmpty lists
    · rw [interleaveReadAux_unfold, if_pos hall]
      have := allEmpty_forall_nil hall
      calc lists = lists.map id := (List.map_id lists).symm
        _ = lists.map (fun _ => ([] : List α)) :=
            List.map_congr_left (fun l hl => by simp [this l hl])
    · rw [interleaveReadAux_unfold, if_neg hall]
      have hne : ∃ l ∈ lists, l ≠ [] := by
        simp only [allEmpty, List.all_eq_true, Bool.not_eq_true] at hall
        push_neg at hall
        obtain ⟨l, hl, hlne⟩ := hall
        exact ⟨l, hl, by simpa [List.isEmpty_iff] using hlne⟩
      obtain ⟨l, hl, hlne⟩ := hne
      have hlt := sum_map_length_tail_lt lists l hl hlne
      have := ih (lists.map List.tail) (by omega)
      simp only [this, List.map_map]
      rfl

/-- **C5.** `InterleaveRecordingsElement.read` (src/troi/patches/artist_radio.py
lines 39-54) round-robin interleaves its input sequences: the output is a
permutation of the concatenation of the inputs (so every input item appears in
the output), its length is the sum of the input lengths, every input sequence
occurs in the output as a sublist (the relative order of items from one source
is preserved), and whenever some source is non-empty the output starts with
item 0 of every non-empty source in source order followed by the interleaving
of the remaining items. -/
theorem interleave_read_round_robin {α : Type _} (lists : List (List α)) :
    (interleaveRead lists).Perm lists.flatten ∧
    (interleaveRead lists).length = (lists.map List.length).sum ∧
    (∀ l ∈ lists, l.Sublist (interleaveRead lists)) ∧
    (allEmpty lists = false →
      interleaveRead lists =
        lists.filterMap List.head? ++ interleaveRead (lists.map List.tail)) := by
  have hperm := interleave_perm_bound (lists.map List.length).sum lists (le_refl _)
  refine ⟨hperm, ?_, ?_, ?_⟩
  · rw [hperm.length_eq]
    exact List.length_flatten lists
  · exact interleave_sublist_bound (lists.map List.length).sum lists (le_refl _)
  · intro hfalse
    rw [interleaveRead, interleaveReadAux_unfold, if_neg (by simp [hfalse])]
    rfl

/-- Witness for C5 at the spec example source lengths [3,1,2]: all six items
appear, the first source is preserved as a sublist, and the first round takes
item 0 of every source. -/
theorem interleave_read_round_robin_witness :
    (interleaveRead [[1, 2, 3], [4], [5, 6]]).length =
        ([[1, 2, 3], [4], [5, 6]].map List.length).sum ∧
    ([1, 2, 3] : List Nat).Sublist (interleaveRead [[1, 2, 3], [4], [5, 6]]) ∧
    interleaveRead [[1, 2, 3], [4], [5, 6]] =
      [[1, 2, 3], [4], [5, 6]].filterMap List.head? ++
        interleaveRead ([[1, 2, 3], [4], [5, 6]].map List.tail) :=
  ⟨(interleave_read_round_robin [[1, 2, 3], [4], [5, 6]]).2.1,
   (interleave_read_round_robin [[1, 2, 3], [4], [5, 6]]).2.2.1 [1, 2, 3] (by decide),
   (interleave_read_round_robin [[1, 2, 3], [4], [5, 6]]).2.2.2 (by decide)⟩

/-- **C10.** `InterleaveRecordingsElement.read` destructively consumes its
inputs: in the explicit-state embedding `interleaveReadAux`, the final state of
every upstream input list is the empty list (each element was removed by
`pop(0)`), so upstream outputs are not preserved across the call. -/
theorem interleave_read_drains_inputs {α : Type _} (lists : List (List α)) :
    (interleaveReadAux lists).1 = lists.map (fun _ => ([] : List α)) :=
  interleave_state_bound (lists.map List.length).sum lists (le_refl _)

/-! ## DecadePlaylistSplitterElement (src/troi/patches/weekly_flashback_jams.py lines 39-64)

`read` takes `recordings = inputs[0]`; if that list is falsy/empty it returns
it unchanged, otherwise it buckets recordings by decade into a `defaultdict`
(Python dict iteration order = first-insertion order, modelled by an
association list), skipping recordings whose `year` attribute is falsy
(`None` or `0`), and returns one shuffled `Playlist` per bucket of size at
least `minimum_count`.  `random.shuffle` is modelled by an arbitrary
`shuffle` function assumed to permute its argument.  The dynamically typed
return value (the recordings list itself, or a list of playlists) is modelled
by a `Sum`. -/

/-- The decade bucket `(year // 10) * 10`. -/
def decadeOf (y : Nat) : Nat := (y / 10) * 10

/-- `decades[decade].append(r)` on the insertion-ordered association list. -/
def insertRec (groups : List (Nat × List Recording)) (d : Nat) (r : Recording) :
    List (Nat × List Recording) :=
  match groups with
  | [] => [(d, [r])]
  | g :: rest => if g.1 = d then (g.1, g.2 ++ [r]) :: rest else g :: insertRec rest d r

/-- The grouping loop of `DecadePlaylistSplitterElement.read`: recordings with
a falsy `year` (absent or `0`) are skipped, others are appended to their
decade bucket. -/
def groupByDecade : List Recording → List (Nat × List Recording) →
    List (Nat × List Recording)
  | [], acc => acc
  | r :: rest, acc =>
    match r.year with
    | none => groupByDecade rest acc
    | some y =>
      if y = 0 then groupByDecade rest acc
      else groupByDecade rest (insertRec acc (decadeOf y) r)

/-- The playlist-emission loop: buckets below `minimum_count` are skipped, the
rest are shuffled and wrapped in a `Playlist` whose name and filename embed
the decade. -/
def decadePlaylists (minimum_count : Nat) (shuffle : List Recording → List Recording)
    (groups : List (Nat × List Recording)) : List Playlist :=
  groups.filterMap (fun g =>
    if g.2.length < minimum_count then none
    else some { name := toString g.1 ++ "s flashback jams",
                filename := some (toString g.1 ++ "s_flashback_jams.jspf"),
                recordings := shuffle g.2 })

/-- `DecadePlaylistSplitterElement.read` on its single input slot.  An empty
input is returned unchanged (`Sum.inl`); otherwise the list of per-decade
playlists is returned (`Sum.inr`). -/
def decadeSplitterRead (minimum_count : Nat)
    (shuffle : List Recording → List Recording) (recordings : List Recording) :
    Sum (List Recording) (List Playlist) :=
  if recordings.isEmpty then Sum.inl recordings
  else Sum.inr (decadePlaylists minimum_count shuffle (groupByDecade recordings []))

/-- Bucket invariant: every recording stored under key `d` has a non-zero year
whose decade is `d`. -/
def GroupInv (g : Nat × List Recording) : Prop :=
  ∀ r ∈ g.2, ∃ y, r.year = some y ∧ y ≠ 0 ∧ decadeOf y = g.1

theorem insertRec_inv {groups : List (Nat × List Recording)} {d : Nat} {r : Recording}
    (hg : ∀ g ∈ groups, GroupInv g)
    (hr : ∃ y, r.year = some y ∧ y ≠ 0 ∧ decadeOf y = d) :
    ∀ g ∈ insertRec groups d r, GroupInv g := by
  induction groups with
  | nil =>
    intro g hgmem
    simp only [insertRec, List.mem_singleton] at hgmem
    subst hgmem
    intro x hx
    simp only [List.mem_singleton] at hx
    subst hx
    exact hr
  | cons g0 rest ih =>
    intro g hgmem
    simp only [insertRec] at hgmem
    by_cases hd : g0.1 = d
    · rw [if_pos hd] at hgmem
      rcases List.mem_cons.mp hgmem with h | h
      · subst h
        intro x hx
        rcases List.mem_append.mp hx with h | h
        · obtain ⟨y, hy⟩ := hg g0 (List.mem_cons_self g0 rest) x h
          exact ⟨y, hy⟩
        · simp only [List.mem_singleton] at h
          subst h
          obtain ⟨y, h1, h2, h3⟩ := hr
          exact ⟨y, h1, h2, by rw [h3, hd]⟩
      · exact hg g (List.mem_cons_of_mem g0 h)
    · rw [if_neg hd] at hgmem
      rcases List.mem_cons.mp hgmem with h | h
      · subst h
        exact hg g (List.mem_cons_self g rest)
      · exact ih (fun g hgm => hg g (List.mem_cons_of_mem g0 hgm)) g h

theorem groupByDecade_inv {recs : List Recording} :
    ∀ {acc : List (Nat × List Recording)}, (∀ g ∈ acc, GroupInv g) →
      ∀ g ∈ groupByDecade recs acc, GroupInv g := by
  induction recs with
  | nil => intro acc hacc; simpa [groupByDecade] using hacc
  | cons r rest ih =>
    intro acc hacc
    rcases hy : r.year with _ | y
    · rw [show groupByDecade (r :: rest) acc = groupByDecade rest acc by
        simp [groupByDecade, hy]]
      exact ih hacc
    · by_cases h0 : y = 0
      · rw [show groupByDecade (r :: rest) acc = groupByDecade rest acc by
          simp [groupByDecade, hy, h0]]
        exact ih hacc
      · rw [show groupByDecade (r :: rest) acc =
            groupByDecade rest (insertRec acc (decadeOf y) r) by
          simp [groupByDecade, hy, h0]]
        exact ih (insertRec_inv hacc ⟨y, hy, h0, rfl⟩)

/-- **C6.** For every non-empty input on which `DecadePlaylistSplitterElement.read`
produces playlists (and any shuffle that permutes its argument): every
recording of every output playlist carries a non-zero year, all recordings of
one playlist map to the same `(year // 10) * 10` decade `d`, every output
playlist holds at least `minimum_count` recordings, and its name and filename
embed the decade `d`. -/
theorem decade_splitter_read_buckets (minimum_count : Nat)
    (shuffle : List Recording → List Recording)
    (hsh : ∀ l, (shuffle l).Perm l)
    (recs : List Recording) (hne : recs ≠ []) :
    ∃ pls, decadeSplitterRead minimum_count shuffle recs = Sum.inr pls ∧
      ∀ pl ∈ pls,
        (∃ d, pl.name = toString d ++ "s flashback jams" ∧
              pl.filename = some (toString d ++ "s_flashback_jams.jspf") ∧
              ∀ r ∈ pl.recordings, ∃ y, r.year = some y ∧ y ≠ 0 ∧ decadeOf y = d) ∧
        minimum_count ≤ pl.recordings.length := by
  refine ⟨decadePlaylists minimum_count shuffle (groupByDecade recs []), ?_, ?_⟩
  · rw [decadeSplitterRead, if_neg (by simpa [List.isEmpty_iff] using hne)]
  · intro pl hpl
    simp only [decadePlaylists, List.mem_filterMap] at hpl
    obtain ⟨g, hg, hsome⟩ := hpl
    by_cases hlen : g.2.length < minimum_count
    · rw [if_pos hlen] at hsome; cases hsome
    · rw [if_neg hlen] at hsome
      have hinv : GroupInv g := groupByDecade_inv (by intro g hg; cases hg) g hg
      cases hsome
      constructor
      · refine ⟨g.1, rfl, rfl, ?_⟩
        intro r hr
        exact hinv r ((hsh g.2).mem_iff.mp hr)
      · simpa [(hsh g.2).length_eq] using Nat.le_of_not_lt hlen

/-- Witness for C6: one 1985 recording with `minimum_count = 1` yields a
playlist of the 1980 decade. -/
theorem decade_splitter_read_buckets_witness :
    ∃ pls, decadeSplitterRead 1 (fun l => l) [{ mbid := "r85", year := some 1985 }] =
        Sum.inr pls ∧
      ∀ pl ∈ pls,
        (∃ d, pl.name = toString d ++ "s flashback jams" ∧
              pl.filename = some (toString d ++ "s_flashback_jams.jspf") ∧
              ∀ r ∈ pl.recordings, ∃ y, r.year = some y ∧ y ≠ 0 ∧ decadeOf y = d) ∧
        1 ≤ pl.recordings.length :=
  decade_splitter_read_buckets 1 (fun l => l) (fun l => List.Perm.refl l)
    [{ mbid := "r85", year := some 1985 }] (by decide)

/-- **C2 counterexample.** A non-empty input none of whose decade groups
reaches `minimum_count` is NOT passed through unchanged: `read` returns the
empty list of playlists, not its original input. -/
theorem decade_splitter_read_no_passthrough :
    decadeSplitterRead 20 (fun l => l) [{ mbid := "r85", year := some 1985 }] =
      Sum.inr [] ∧
    decadeSplitterRead 20 (fun l => l) [{ mbid := "r85", year := some 1985 }] ≠
      Sum.inl [{ mbid := "r85", year := some 1985 }] := by
  constructor
  · decide
  · decide

/-- **C2 amended.** If the input sequence is empty,
`DecadePlaylistSplitterElement.read` returns it unchanged; if it is non-empty
and no decade group reaches `minimum_count`, `read` returns the empty list of
playlists (not the original input); in both cases no exception is raised (the
embedding is a total function). -/
theorem decade_splitter_read_empty_cases (minimum_count : Nat)
    (shuffle : List Recording → List Recording) (recs : List Recording)
    (hbelow : ∀ g ∈ groupByDecade recs [], g.2.length < minimum_count) :
    decadeSplitterRead minimum_count shuffle recs =
      if recs.isEmpty then Sum.inl recs else Sum.inr [] := by
  by_cases h : recs.isEmpty
  · rw [decadeSplitterRead, if_pos h, if_pos h]
  · rw [decadeSplitterRead, if_neg h, if_neg h]
    have : decadePlaylists minimum_count shuffle (groupByDecade recs []) = [] := by
      rw [decadePlaylists, List.filterMap_eq_nil_iff]
      intro g hg
      rw [if_pos (hbelow g hg)]
    rw [this]

/-- Witness for C2 (amended): a single 1985 recording against the default
threshold 20 yields the empty playlist list. -/
theorem decade_splitter_read_empty_cases_witness :
    decadeSplitterRead 20 (fun l => l) [{ mbid := "r85", year := some 1985 }] =
      if ([{ mbid := "r85", year := some 1985 }] : List Recording).isEmpty
      then Sum.inl [{ mbid := "r85", year := some 1985 }] else Sum.inr [] :=
  decade_splitter_read_empty_cases 20 (fun l => l)
    [{ mbid := "r85", year := some 1985 }] (by decide)

/-! ## ArtistRadioSourceElement.read score normalization
(src/troi/patches/artist_radio.py lines 138-152)

The collected `self.similar_artists` entries are dicts
`{artist_mbid, artist_name, raw_score, recordings}`; each recording entry of
the popular-recordings payload carries `{recording_mbid, count}`.  The code
computes `max_score = max(0, raw scores)` then sets
`sim["score"] = sim["raw_score"] / float(max_score)` for every entry, and for
each entry computes `max_count = max(0, counts)` over that entry's own
recordings and replaces each `count` by `count / float(max_count)`.
Python raises `ZeroDivisionError` on division by `0.0`; the embedding returns
`none` for that exception.  Scores are modelled as exact rationals. -/

/-- One entry of the popular-recordings payload: `{recording_mbid, count}`. -/
structure RecEntry where
  recording_mbid : String
  count : ℚ
deriving DecidableEq, Repr

/-- One entry of `self.similar_artists` before normalization. -/
structure SimArtist where
  artist_mbid : String
  artist_name : String
  raw_score : ℚ
  recordings : List RecEntry
deriving DecidableEq, Repr

/-- One entry of `self.similar_artists` after normalization: `sim["score"]`
has been added and each recording `count` replaced by its normalized value. -/
structure ScoredSimArtist where
  artist_mbid : String
  artist_name : String
  raw_score : ℚ
  score : ℚ
  recordings : List RecEntry
deriving DecidableEq, Repr

/-- Python division `x / float(m)`: `ZeroDivisionError` (modelled `none`)
exactly when `m = 0`. -/
def qdiv (x m : ℚ) : Option ℚ :=
  if m = 0 then none else some (x / m)

/-- `max_score` accumulation: starts at `0`, folds `max` over the raw scores. -/
def maxRawScore (sims : List SimArtist) : ℚ :=
  sims.foldl (fun m s => max m s.raw_score) 0

/-- `max_count` accumulation for one similar artist's own recordings. -/
def recMaxCount (recs : List RecEntry) : ℚ :=
  recs.foldl (fun m r => max m r.count) 0

/-- The inner loop `rec["count"] = rec["count"] / float(max_count)` over one
similar artist's recordings, with divisor `mc`. -/
def normalizeRecsAux (mc : ℚ) : List RecEntry → Option (List RecEntry)
  | [] => some []
  | r :: rest =>
    match qdiv r.count mc with
    | none => none
    | some c => (normalizeRecsAux mc rest).map (fun rs => { r with count := c } :: rs)

/-- Normalize one similar artist's recording counts by that artist's own
local maximum. -/
def normalizeRecs (recs : List RecEntry) : Option (List RecEntry) :=
  normalizeRecsAux (recMaxCount recs) recs

/-- The outer normalization loop with the group maximum `ms` fixed: for each
entry, first the primary score is divided by `ms`, then the entry's own
recording counts are normalized by that entry's own local maximum. -/
def normalizeSimsAux (ms : ℚ) : List SimArtist → Option (List ScoredSimArtist)
  | [] => some []
  | s :: rest =>
    match qdiv s.raw_score ms with
    | none => none
    | some sc =>
      match normalizeRecs s.recordings with
      | none => none
      | some nr =>
        (normalizeSimsAux ms rest).map
          (fun tail => { artist_mbid := s.artist_mbid, artist_name := s.artist_name,
                         raw_score := s.raw_score, score := sc, recordings := nr } :: tail)

/-- The full normalization pass of `ArtistRadioSourceElement.read`
(lines 138-152): `none` models an uncaught `ZeroDivisionError`. -/
def normalizeSimilarArtists (sims : List SimArtist) : Option (List ScoredSimArtist) :=
  normalizeSimsAux (maxRawScore sims) sims

/-- **C1 (code bug).** When a non-empty normalization group has raw maximum
zero, the code divides by `float(0)` and raises `ZeroDivisionError` instead of
defining the normalized scores as zero: a single collected similar artist with
`raw_score = 0` crashes on the primary-score division, and a single artist
with positive score but all recording counts `0` crashes on the inner count
division. -/
theorem normalization_zero_max_raises :
    normalizeSimilarArtists
        [{ artist_mbid := "m1", artist_name := "A", raw_score := 0,
           recordings := [{ recording_mbid := "r1", count := 5 }] }] = none ∧
    normalizeSimilarArtists
        [{ artist_mbid := "m1", artist_name := "A", raw_score := 3,
           recordings := [{ recording_mbid := "r1", count := 0 }] }] = none := by
  constructor
  · decide
  · decide

theorem foldl_max_eq_base_or_mem (xs : List ℚ) (b : ℚ) :
    xs.foldl max b = b ∨ ∃ x ∈ xs, xs.foldl max b = x := by
  induction xs generalizing b with
  | nil => exact Or.inl rfl
  | cons x xs ih =>
    simp only [List.foldl_cons]
    rcases ih (max b x) with h | ⟨y, hy, hfold⟩
    · rcases max_choice b x with hm | hm
      · exact Or.inl (h.trans hm)
      · exact Or.inr ⟨x, List.mem_cons_self x xs, h.trans hm⟩
    · exact Or.inr ⟨y, List.mem_cons_of_mem x hy, hfold⟩

theorem base_le_foldl_max (xs : List ℚ) (b : ℚ) : b ≤ xs.foldl max b := by
  induction xs generalizing b with
  | nil => exact le_refl b
  | cons x xs ih =>
    simp only [List.foldl_cons]
    exact le_trans (le_max_left b x) (ih (max b x))

theorem mem_le_foldl_max (xs : List ℚ) (b : ℚ) (x : ℚ) (hx : x ∈ xs) :
    x ≤ xs.foldl max b := by
  induction xs generalizing b with
  | nil => cases hx
  | cons y ys ih =>
    simp only [List.foldl_cons]
    rcases List.mem_cons.mp hx with h | h
    · subst h
      exact le_trans (le_max_right b x) (base_le_foldl_max ys (max b x))
    · exact ih (max b y) h

theorem normalizeRecsAux_of_ne_zero {mc : ℚ} (hmc : mc ≠ 0) (recs : List RecEntry) :
    normalizeRecsAux mc recs =
      some (recs.map (fun r => { r with count := r.count / mc })) := by
  induction recs with
  | nil => rfl
  | cons r rest ih =>
    simp only [normalizeRecsAux, qdiv, if_neg hmc, ih, List.map_cons]
    rfl

theorem normalizeRecs_eq {recs : List RecEntry}
    (h : recMaxCount recs ≠ 0 ∨ recs = []) :
    normalizeRecs recs =
      some (recs.map (fun r => { r with count := r.count / recMaxCount recs })) := by
  rcases h with h | h
  · exact normalizeRecsAux_of_ne_zero h recs
  · subst h; rfl

theorem normalizeSimsAux_of_ne_zero {ms : ℚ} (hms : ms ≠ 0) (sims : List SimArtist)
    (hrec : ∀ s ∈ sims, recMaxCount s.recordings ≠ 0 ∨ s.recordings = []) :
    normalizeSimsAux ms sims =
      some (sims.map (fun s =>
        { artist_mbid := s.artist_mbid, artist_name := s.artist_name,
          raw_score := s.raw_score, score := s.raw_score / ms,
          recordings := s.recordings.map
            (fun r => { r with count := r.count / recMaxCount s.recordings }) })) := by
  induction sims with
  | nil => rfl
  | cons s rest ih =>
    have hs := hrec s (List.mem_cons_self s rest)
    have hrest : ∀ x ∈ rest, recMaxCount x.recordings ≠ 0 ∨ x.recordings = [] :=
      fun x hx => hrec x (List.mem_cons_of_mem s hx)
    simp only [normalizeSimsAux, qdiv, if_neg hms, normalizeRecs_eq hs, ih hrest,
      List.map_cons]
    rfl

/-- **C8.** For a non-empty collected group whose raw maximum is positive (and
whose entries admit the inner normalization), the normalization pass of
`ArtistRadioSourceElement.read` succeeds, the maximum normalized primary score
over the group equals 1 (every normalized score is at most 1 and some entry
attains exactly 1), and each entry's recording counts are normalized
independently by that entry's own local maximum (the output entry for `s`
equals `s` with each count divided by `recMaxCount s.recordings`), never
cross-normalized between entries. -/
theorem normalization_max_is_one (sims : List SimArtist)
    (hne : sims ≠ []) (hpos : 0 < maxRawScore sims)
    (hrec : ∀ s ∈ sims, recMaxCount s.recordings ≠ 0 ∨ s.recordings = []) :
    normalizeSimilarArtists sims =
      some (sims.map (fun s =>
        { artist_mbid := s.artist_mbid, artist_name := s.artist_name,
          raw_score := s.raw_score, score := s.raw_score / maxRawScore sims,
          recordings := s.recordings.map
            (fun r => { r with count := r.count / recMaxCount s.recordings }) })) ∧
    (∀ out, normalizeSimilarArtists sims = some out →
      (∀ o ∈ out, o.score ≤ 1) ∧ (∃ o ∈ out, o.score = 1)) := by
  have hms : maxRawScore sims ≠ 0 := ne_of_gt hpos
  have heq := normalizeSimsAux_of_ne_zero hms sims hrec
  rw [normalizeSimilarArtists] at *
  refine ⟨heq, ?_⟩
  intro out hout
  rw [heq] at hout
  injection hout with hout
  subst hout
  have hfold : maxRawScore sims = (sims.map (fun s => s.raw_score)).foldl max 0 := by
    rw [maxRawScore, List.foldl_map]
  constructor
  · intro o ho
    obtain ⟨s, hs, rfl⟩ := List.mem_map.mp ho
    have hle : s.raw_score ≤ maxRawScore sims := by
      rw [hfold]
      exact mem_le_foldl_max _ 0 s.raw_score
        (List.mem_map.mpr ⟨s, hs, rfl⟩)
    exact (div_le_one hpos).mpr hle
  · have hattained : ∃ s ∈ sims, s.raw_score = maxRawScore sims := by
      rcases foldl_max_eq_base_or_mem (sims.map (fun s => s.raw_score)) 0 with h | h
      · rw [hfold] at hpos
        rw [h] at hpos
        exact absurd hpos (lt_irrefl 0)
      · obtain ⟨x, hx, hfx⟩ := h
        obtain ⟨s, hs, rfl⟩ := List.mem_map.mp hx
        exact ⟨s, hs, by rw [hfold, hfx]⟩
    obtain ⟨s, hs, hsmax⟩ := hattained
    refine ⟨_, List.mem_map.mpr ⟨s, hs, rfl⟩, ?_⟩
    simp only [hsmax]
    exact div_self hms

/-- Concrete collected group used as the C8 witness input: two similar
artists with raw scores 2 and 1 and local recording-count maxima 4 and 3. -/
def c8SampleSims : List SimArtist :=
  [{ artist_mbid := "m1", artist_name := "A", raw_score := 2,
     recordings := [{ recording_mbid := "r1", count := 4 }] },
   { artist_mbid := "m2", artist_name := "B", raw_score := 1,
     recordings := [{ recording_mbid := "r2", count := 3 }] }]

/-- Witness for C8: the sample group normalizes successfully, with normalized
scores at most 1 and one of them exactly 1. -/
theorem normalization_max_is_one_witness :
    normalizeSimilarArtists c8SampleSims =
      some (c8SampleSims.map (fun s =>
        { artist_mbid := s.artist_mbid, artist_name := s.artist_name,
          raw_score := s.raw_score, score := s.raw_score / maxRawScore c8SampleSims,
          recordings := s.recordings.map
            (fun r => { r with count := r.count / recMaxCount s.recordings }) })) ∧
    (∀ out, normalizeSimilarArtists c8SampleSims = some out →
      (∀ o ∈ out, o.score ≤ 1) ∧ (∃ o ∈ out, o.score = 1)) :=
  normalization_max_is_one c8SampleSims (by decide)
    (by norm_num [maxRawScore, c8SampleSims]) (by decide)

/-! ## ArtistRadioSourceElement.get_similar_artists
(src/troi/patches/artist_radio.py lines 82-99)

The parsed JSON response is modelled by a small JSON value type.  The code
runs `artists = r.json()[3]["data"]` inside `try ... except IndexError`,
returning `([], None)` when an `IndexError` is raised there; any other
exception (`KeyError`, `TypeError`) escapes.  It then evaluates
`artist_name = r.json()[1]["data"][0]["name"]` OUTSIDE the `try`, so an
`IndexError` from the empty name payload escapes as well. -/

/-- Minimal JSON value model for the service responses. -/
inductive JVal where
  | obj (fields : List (String × JVal))
  | arr (elems : List JVal)
  | str (s : String)
  | num (q : ℚ)
  | null

/-- Python exceptions reachable from the JSON accesses in
`get_similar_artists`. -/
inductive PyErr where
  | indexError
  | keyError
  | typeError
deriving DecidableEq, Repr

/-- Python `v[i]` for integer `i`: `IndexError` past the end of a list,
`TypeError` on a non-sequence. -/
def jIndex : JVal → Nat → Except PyErr JVal
  | .arr xs, i =>
    match xs[i]? with
    | some v => .ok v
    | none => .error .indexError
  | _, _ => .error .typeError

/-- Python `v[k]` for string `k`: `KeyError` on a missing key, `TypeError`
when `v` is not a dict. -/
def jKey : JVal → String → Except PyErr JVal
  | .obj fs, k =>
    match fs.lookup k with
    | some v => .ok v
    | none => .error .keyError
  | _, _ => .error .typeError

/-- The value of `get_similar_artists`: the raw `artists` payload and, when
reached, `artist_name` (`none` models Python `None`). -/
structure SimilarArtistsResult where
  artists : JVal
  artist_name : Option JVal

/-- `ArtistRadioSourceElement.get_similar_artists` applied to the parsed
response: `r.json()[3]["data"]` under `except IndexError` (which yields
`([], None)`), then `r.json()[1]["data"][0]["name"]` outside any handler.
`Except.error` models an exception escaping the method. -/
def getSimilarArtists (resp : JVal) : Except PyErr SimilarArtistsResult :=
  match (do
      let e3 ← jIndex resp 3
      jKey e3 "data" : Except PyErr JVal) with
  | .error .indexError => .ok { artists := .arr [], artist_name := none }
  | .error e => .error e
  | .ok artists => do
    let e1 ← jIndex resp 1
    let d ← jKey e1 "data"
    let first ← jIndex d 0
    let nm ← jKey first "name"
    .ok { artists := artists, artist_name := some nm }

/-- Response whose artist list (element 3) is present but whose name payload
(element 1) has an empty `data` list. -/
def c4BadResponse : JVal :=
  .arr [.null,
        .obj [("data", .arr [])],
        .null,
        .obj [("data", .arr [.obj [("artist_mbid", .str "x"),
                                   ("name", .str "X"),
                                   ("score", .num 9)]])]]

/-- Response short enough that `r.json()[3]` raises the `IndexError` the code
does catch. -/
def c4ShortResponse : JVal := .arr []

/-- **C4 (code bug).** `get_similar_artists` catches `IndexError` only around
`r.json()[3]["data"]`: a truncated response is indeed treated as no data
(`([], None)`), but a response whose artist list is present while the name
payload `r.json()[1]["data"]` is empty raises an uncaught `IndexError` at
`[0]`, which escapes the element instead of being treated as "no data". -/
theorem get_similar_artists_name_payload_raises :
    getSimilarArtists c4BadResponse = .error .indexError ∧
    getSimilarArtists c4ShortResponse =
      .ok { artists := .arr [], artist_name := none } := by
  constructor
  · rfl
  · rfl

/-! ## PrintRecordingList (src/troi/print_recording.py lines 45-60)

One call to `print` on a freshly constructed `PrintRecordingList`
(`self.print_year` initially `None`, so the first `print_recording` call runs
`_examine_recording_for_headers` on the first recording it sees).  The
dynamically typed argument (a `Recording`, a `list` of recordings, or a
`Playlist`) is modelled by `PrintInput`.

`print_recording` completes normally only when the columns detected from the
first recording can be formatted for the current recording: a detected `year`
column with `recording.year` absent hits `"%d" % None` (`TypeError`); detected
`listen_count` / `bpm` / `moods` columns with the key absent hit a `KeyError`;
a detected genre column prints BOTH `musicbrainz["genres"]` and
`musicbrainz["tags"]`, so either key missing hits a `KeyError`.  The artist
and name columns degrade gracefully and never raise. -/

/-- The columns chosen by `_examine_recording_for_headers` from the first
recording (`print_year`, `print_listen_count`, `print_bpm`, `print_moods`,
`print_genre`). -/
structure Headers where
  year : Bool
  listenCount : Bool
  bpm : Bool
  moods : Bool
  genre : Bool
deriving DecidableEq, Repr

/-- `_examine_recording_for_headers`: a column is enabled iff the first
recording carries the corresponding field; the genre column is enabled if
either `genres` or `tags` is present. -/
def examineHeaders (r : Recording) : Headers :=
  { year := r.year.isSome, listenCount := r.listen_count.isSome,
    bpm := r.bpm.isSome, moods := r.moods.isSome,
    genre := r.genres.isSome || r.tags.isSome }

/-- Whether `print_recording` completes without an exception for `r` under the
detected columns `h` (the name/artist line itself never raises). -/
def printableUnder (h : Headers) (r : Recording) : Bool :=
  (!h.year || r.year.isSome) && (!h.listenCount || r.listen_count.isSome) &&
  (!h.bpm || r.bpm.isSome) && (!h.moods || r.moods.isSome) &&
  (!h.genre || (r.genres.isSome && r.tags.isSome))

/-- Outcome of one loop printing a sequence of recordings: either all lines
were printed, or formatting failed partway (`printed` lists the recordings
whose line completed). -/
inductive PrintRun where
  | allPrinted (printed : List Recording)
  | failed (printed : List Recording)
deriving DecidableEq, Repr

/-- Print a sequence of recordings through `print_recording`, threading the
header state (`none` until the first recording is examined). -/
def printLoop (h? : Option Headers) : List Recording → PrintRun
  | [] => .allPrinted []
  | r :: rest =>
    let h := h?.getD (examineHeaders r)
    if printableUnder h r then
      match printLoop (some h) rest with
      | .allPrinted ps => .allPrinted (r :: ps)
      | .failed ps => .failed (r :: ps)
    else .failed []

/-- The dynamically typed argument of `PrintRecordingList.print`. -/
inductive PrintInput where
  | single (r : Recording)
  | recList (rs : List Recording)
  | playlist (p : Playlist)
deriving DecidableEq, Repr

/-- Outcome of `PrintRecordingList.print`: normal return, the unconditional
`PipelineError` raised after printing a list or playlist, the `IndexError`
from `entity[0]` on an empty list, or a `TypeError`/`KeyError` escaping from
`print_recording`. -/
inductive PrintOutcome where
  | ok (printed : List Recording)
  | pipelineError (printed : List Recording)
  | indexError
  | fieldError (printed : List Recording)
deriving DecidableEq, Repr

/-- `PrintRecordingList.print` on a fresh instance.  A single `Recording`
returns after printing it; a `list` first evaluates `entity[0]` (IndexError
when empty), prints every element, then falls through to the unconditional
`raise PipelineError`; a `Playlist` prints its recordings and also reaches the
unconditional `raise`. -/
def printRecordingList : PrintInput → PrintOutcome
  | .single r =>
    if printableUnder (examineHeaders r) r then .ok [r] else .fieldError []
  | .recList [] => .indexError
  | .recList (r :: rest) =>
    match printLoop none (r :: rest) with
    | .allPrinted ps => .pipelineError ps
    | .failed ps => .fieldError ps
  | .playlist p =>
    match printLoop none p.recordings with
    | .allPrinted ps => .pipelineError ps
    | .failed ps => .fieldError ps

/-- Decidable form of "every recording in the list supports the columns
detected from the first recording". -/
def listConsistent : List Recording → Bool
  | [] => true
  | r :: rest =>
    printableUnder (examineHeaders r) r && rest.all (printableUnder (examineHeaders r))

theorem printLoop_all {h : Headers} {rs : List Recording}
    (hall : ∀ r ∈ rs, printableUnder h r = true) :
    printLoop (some h) rs = .allPrinted rs := by
  induction rs with
  | nil => rfl
  | cons r rest ih =>
    have hr := hall r (List.mem_cons_self r rest)
    have hrest := ih (fun x hx => hall x (List.mem_cons_of_mem r hx))
    simp only [printLoop, Option.getD_some, hr, if_pos, hrest]

theorem printLoop_of_consistent {rs : List Recording}
    (hc : listConsistent rs = true) :
    printLoop none rs = .allPrinted rs := by
  cases rs with
  | nil => rfl
  | cons r rest =>
    simp only [listConsistent, Bool.and_eq_true, List.all_eq_true] at hc
    obtain ⟨hr, hrest⟩ := hc
    have htail := printLoop_all (h := examineHeaders r) hrest
    simp only [printLoop, Option.getD_none, hr, if_pos, htail]

/-- **C9 counterexample.** A two-element recording list whose first recording
has a year and whose second does not: `print` prints the first line, then
`"%d" % None` raises a `TypeError` while printing the second — it neither
prints every recording nor reaches the `raise PipelineError`, refuting the
claim for this non-empty list. -/
theorem print_recording_list_mixed_list_fails :
    printRecordingList (.recList
        [{ mbid := "a", year := some 1980 }, { mbid := "b" }]) =
      .fieldError [{ mbid := "a", year := some 1980 }] ∧
    printRecordingList (.recList
        [{ mbid := "a", year := some 1980 }, { mbid := "b" }]) ≠
      .pipelineError [{ mbid := "a", year := some 1980 }, { mbid := "b" }] := by
  constructor
  · decide
  · decide

/-- **C9 amended.** On a fresh `PrintRecordingList`, `print` returns normally
only when given a single `Recording`; a non-empty recording list or a
`Playlist` in which every recording supports the columns detected from the
first recording is printed element by element and then still hits the
unconditional `raise PipelineError`; on a list or playlist where some
recording lacks a detected column, a `TypeError`/`KeyError` escapes partway
through printing instead; an empty list raises `IndexError` when `entity[0]`
is inspected. -/
theorem print_recording_list_dispatch (rs : List Recording) (p : Playlist)
    (hrs : rs ≠ []) (hcrs : listConsistent rs = true)
    (hcp : listConsistent p.recordings = true) :
    printRecordingList (.recList rs) = .pipelineError rs ∧
    printRecordingList (.playlist p) = .pipelineError p.recordings ∧
    printRecordingList (.recList []) = .indexError ∧
    (∀ r, printableUnder (examineHeaders r) r = true →
      printRecordingList (.single r) = .ok [r]) ∧
    (∀ inp out, printRecordingList inp = .ok out → ∃ r, inp = .single r) := by
  refine ⟨?_, ?_, rfl, ?_, ?_⟩
  · cases rs with
    | nil => exact absurd rfl hrs
    | cons r rest =>
      simp only [printRecordingList, printLoop_of_consistent hcrs]
  · simp only [printRecordingList]
    rw [printLoop_of_consistent hcp]
  · intro r hr
    simp only [printRecordingList, hr, if_pos]
  · intro inp out hout
    cases inp with
    | single r => exact ⟨r, rfl⟩
    | recList rs0 =>
      cases rs0 with
      | nil => cases hout
      | cons r rest =>
        simp only [printRecordingList] at hout
        rcases hloop : printLoop none (r :: rest) with ps | ps <;>
          rw [hloop] at hout <;> cases hout
    | playlist p0 =>
      simp only [printRecordingList] at hout
      rcases hloop : printLoop none p0.recordings with ps | ps <;>
        rw [hloop] at hout <;> cases hout

/-- Witness for C9 (amended): a singleton list with a 1985 recording and a
playlist with no recordings. -/
theorem print_recording_list_dispatch_witness :
    printRecordingList (.recList [{ mbid := "r85", year := some 1985 }]) =
      .pipelineError [{ mbid := "r85", year := some 1985 }] ∧
    printRecordingList (.playlist { name := "p" }) = .pipelineError [] ∧
    printRecordingList (.recList []) = .indexError ∧
    (∀ r, printableUnder (examineHeaders r) r = true →
      printRecordingList (.single r) = .ok [r]) ∧
    (∀ inp out, printRecordingList inp = .ok out → ∃ r, inp = .single r) :=
  print_recording_list_dispatch [{ mbid := "r85", year := some 1985 }]
    { name := "p" } (by decide) (by decide) (by decide)

/-! ## Patch graph construction and validation
(src/troi/patches/artist_radio.py lines 213-240,
src/troi/patches/weekly_flashback_jams.py lines 108-137)

`create` validates its enumerated parameter first and raises on an invalid
value, before any element is constructed.  The element graphs built on the
valid path are modelled by `PipelineNode`.  Modelled from the spec: the
element constructors invoked by `create` (`RecordingLookupElement`,
`UserRecordingRecommendationsElement`, `MBIDMappingLookupElement`,
`YearSortElement`, `PlaylistMakerElement`, `PlaylistRedundancyReducerElement`,
`PlaylistShuffleElement` are not under `src/`) only store their parameters —
per spec §4.2 `create` "builds and returns the root of a fully wired Element
graph; must not execute it", and all network/database traffic happens inside
`read` during execution — so construction performs no network or database
access and each `create` returns an empty effect trace alongside its result. -/

/-- The element graphs wired by the two patches, one constructor per element
class used, holding the constructor arguments and the ordered sources. -/
inductive PipelineNode where
  | artistRadioSource (artist_mbid mode : String)
  | recordingLookup (skip_not_found : Bool) (sources : List PipelineNode)
  | interleaveElement (sources : List PipelineNode)
  | playlistMaker (name desc patch_slug : String)
      (max_num_recordings max_artist_occurrence : Nat) (sources : List PipelineNode)
  | userRecommendations (user_name artist_type : String) (count : Int)
  | mbidMapping (sources : List PipelineNode)
  | yearSort (sources : List PipelineNode)
  | decadeSplitter (minimum_count : Nat) (sources : List PipelineNode)
  | redundancyReducer (max_artist_occurrence : Nat) (sources : List PipelineNode)
  | shuffleElement (sources : List PipelineNode)

/-- The exception type raised by each patch on an invalid enumerated value
(`RuntimeError` for artist-radio, `PipelineError` for weekly-flashback-jams). -/
inductive PatchException where
  | runtimeError
  | pipelineError
deriving DecidableEq, Repr

/-- `ArtistRadioPatch.create`: reject `mode` outside easy/medium/hard with a
`RuntimeError`, otherwise wire one source + lookup chain per seed artist into
the interleaver and playlist maker.  The first component is the trace of
network/database accesses performed (always empty, see section comment). -/
def artistRadioCreate (mode : String) (artist_mbids : List String) :
    List String × Except PatchException PipelineNode :=
  if mode = "easy" ∨ mode = "medium" ∨ mode = "hard" then
    ([], .ok (.playlistMaker
      ("Artist Radio for " ++ String.intercalate "," artist_mbids)
      "Experimental artist radio playlist" "artist-radio" 50 5
      [.interleaveElement (artist_mbids.map (fun mbid =>
        .recordingLookup false [.artistRadioSource mbid mode]))]))
  else ([], .error .runtimeError)

/-- `WeeklyFlashbackJams.create`: reject `type` outside top/similar with a
`PipelineError`, otherwise wire the recommendation/lookup/sort/split/shape
chain. -/
def weeklyFlashbackJamsCreate (user_name ty : String) :
    List String × Except PatchException PipelineNode :=
  if ty = "top" ∨ ty = "similar" then
    ([], .ok (.shuffleElement [.redundancyReducer 3 [.decadeSplitter 20
      [.yearSort [.mbidMapping [.recordingLookup true
        [.userRecommendations user_name ty (-1)]]]]]]))
  else ([], .error .pipelineError)

/-- **C7.** Both patches reject an invalid enumerated parameter value with an
input-validation exception (`RuntimeError` for a mode outside
easy/medium/hard, `PipelineError` for a type outside top/similar) while
performing no network or database access (empty effect trace). -/
theorem patch_create_validates_before_access (mode : String)
    (artist_mbids : List String) (ty user_name : String)
    (hmode : mode ≠ "easy" ∧ mode ≠ "medium" ∧ mode ≠ "hard")
    (hty : ty ≠ "top" ∧ ty ≠ "similar") :
    artistRadioCreate mode artist_mbids = ([], .error .runtimeError) ∧
    weeklyFlashbackJamsCreate user_name ty = ([], .error .pipelineError) := by
  constructor
  · rw [artistRadioCreate, if_neg]
    rintro (h | h | h)
    · exact hmode.1 h
    · exact hmode.2.1 h
    · exact hmode.2.2 h
  · rw [weeklyFlashbackJamsCreate, if_neg]
    rintro (h | h)
    · exact hty.1 h
    · exact hty.2 h

/-- Witness for C7 at mode "expert" and type "bogus". -/
theorem patch_create_validates_before_access_witness :
    artistRadioCreate "expert" ["mbid1"] = ([], .error .runtimeError) ∧
    weeklyFlashbackJamsCreate "user1" "bogus" = ([], .error .pipelineError) :=
  patch_create_validates_before_access "expert" ["mbid1"] "bogus" "user1"
    (by decide) (by decide)

/-! ## The playlist CLI command (src/troi/cli.py lines 69-112)

When the requested patch slug is not among the discovered patches, `playlist`
prints an error to stderr and executes `return None`; under click's standalone
mode a command returning `None` terminates the process with exit status 0.
On the normal path the command ends with `sys.exit(0 if ret else -1)`.
Modelled from the spec: `ret = patch.generate_playlist()` (troi/core and the
patch base class are not under `src/`) is truthy exactly when a valid
non-empty playlist was produced and the requested save/upload side effects
succeeded; its outcome is the boolean parameter `generateOk`. -/

/-- Exit status of `troi playlist <patchname> ...` given the discovered patch
slugs and the outcome of `generate_playlist`. -/
def playlistCommandExit (discovered : List String) (patchname : String)
    (generateOk : Bool) : Int :=
  if ¬ discovered.contains patchname then 0
  else if generateOk then 0 else -1

/-- **C3 (code bug).** Requesting a slug that is not among the discovered
patches makes the command print an error and `return None`, which click turns
into exit status 0 — not the non-zero status the claim requires.  On a
discovered slug the exit status is 0 exactly when `generate_playlist`
succeeded. -/
theorem playlist_command_unknown_patch_exits_zero :
    playlistCommandExit ["artist-radio", "weekly-flashback-jams"]
        "no-such-patch" false = 0 ∧
    playlistCommandExit ["artist-radio", "weekly-flashback-jams"]
        "no-such-patch" true = 0 ∧
    (["artist-radio", "weekly-flashback-jams"].contains "no-such-patch") = false ∧
    (∀ ok : Bool, (playlistCommandExit ["artist-radio", "weekly-flashback-jams"]
        "artist-radio" ok = 0) = (ok = true)) := by
  refine ⟨rfl, rfl, rfl, ?_⟩
  intro ok
  cases ok <;> simp [playlistCommandExit]

end Troi
